import Mathlib

set_option maxHeartbeats 1000000
set_option maxRecDepth 100000

/-!
Verification of the pngme chunk codec (src/chunk_type.rs, src/chunk.rs).

Machine integers are modelled as Nat: u8 values are Nats (with a `< 256`
side condition where a claim quantifies over raw buffers), u32 arithmetic
takes `% 2 ^ 32` exactly where the Rust code casts (`data.len() as u32`).
Fallible Rust functions returning `Result` are modelled with `Except`;
`Chunk::try_from`, which can also panic (out-of-bounds indexing, a failed
`.unwrap()`, and the debug-mode overflow check on the `len - 12` usize
subtraction), is modelled with the three-outcome type `PResult` whose
`panic` constructor records those aborts.
-/

/-- The error enum `ChunkTypeError` of src/chunk_type.rs. -/
inductive ChunkTypeError where
  | InvalidChunk
deriving DecidableEq

/-- The struct `ChunkType` of src/chunk_type.rs: four u8 fields. -/
structure ChunkType where
  a : Nat
  b : Nat
  c : Nat
  d : Nat
deriving DecidableEq

/-- The helper `fn check(val: u8)` of src/chunk_type.rs: accepts
`(65..91).contains(&val) || (97..123).contains(&val)`. -/
def check (val : Nat) : Except ChunkTypeError Nat :=
  if (65 ≤ val ∧ val < 91) ∨ (97 ≤ val ∧ val < 123) then .ok val
  else .error .InvalidChunk

/-- `impl TryFrom<[u8; 4]> for ChunkType` of src/chunk_type.rs: the four
`check(value[i])?` calls in order, the first failure short-circuiting. -/
def ChunkType.try_from (v0 v1 v2 v3 : Nat) : Except ChunkTypeError ChunkType :=
  match check v0 with
  | .error e => .error e
  | .ok a =>
    match check v1 with
    | .error e => .error e
    | .ok b =>
      match check v2 with
      | .error e => .error e
      | .ok c =>
        match check v3 with
        | .error e => .error e
        | .ok d => .ok ⟨a, b, c, d⟩

/-- `ChunkType::bytes` of src/chunk_type.rs. -/
def ChunkType.bytes (self : ChunkType) : List Nat := [self.a, self.b, self.c, self.d]

/-- `ChunkType::is_valid` of src/chunk_type.rs: `b'A' <= self.c && b'Z' >= self.c`. -/
def ChunkType.is_valid (self : ChunkType) : Bool := 65 ≤ self.c && self.c ≤ 90

/-- `ChunkType::is_critical` of src/chunk_type.rs: `self.a & (1 << 5) == 0`. -/
def ChunkType.is_critical (self : ChunkType) : Bool := self.a &&& (1 <<< 5) == 0

/-- `ChunkType::is_public` of src/chunk_type.rs: `self.b & (1 << 5) == 0`. -/
def ChunkType.is_public (self : ChunkType) : Bool := self.b &&& (1 <<< 5) == 0

/-- `ChunkType::is_reserved_bit_valid` of src/chunk_type.rs:
`self.c & (1 << 5) == 0`. -/
def ChunkType.is_reserved_bit_valid (self : ChunkType) : Bool := self.c &&& (1 <<< 5) == 0

/-- `ChunkType::is_safe_to_copy` of src/chunk_type.rs: `self.d & (1 << 5) != 0`. -/
def ChunkType.is_safe_to_copy (self : ChunkType) : Bool := self.d &&& (1 <<< 5) != 0

/-- One shift-and-conditional-xor step of the reflected CRC-32 algorithm. -/
def crcBit (c : Nat) : Nat :=
  if c % 2 = 1 then (c >>> 1) ^^^ 0xEDB88320 else c >>> 1

/-- Iterate `crcBit` k times. -/
def crcBits : Nat → Nat → Nat
  | 0, c => c
  | k + 1, c => crcBits k (crcBit c)

/-- Absorb one byte into a running CRC-32 state. -/
def crc32Update (c b : Nat) : Nat := crcBits 8 (c ^^^ b)

/-- The checksum `crc::Crc::<u32>::new(&crc::CRC_32_ISO_HDLC).checksum`
used by src/chunk.rs. The crc crate is an external dependency; this is the
CRC-32/ISO-HDLC algorithm the spec names (reflected polynomial 0xEDB88320,
initial state 0xFFFFFFFF, final xor 0xFFFFFFFF), validated below against
the repository's own test vector (crc 2882656334 for the RuSt fixture). -/
def crc32 (data : List Nat) : Nat :=
  (data.foldl crc32Update 0xFFFFFFFF) ^^^ 0xFFFFFFFF

/-- The error enum `InvalidChunk` of src/chunk.rs. -/
inductive InvalidChunk where
  | Header
  | Length
  | «Type»
  | Data
  | Crc
deriving DecidableEq

/-- The struct `Chunk` of src/chunk.rs. -/
structure Chunk where
  length : Nat
  chunk_type : ChunkType
  chunk_data : List Nat
  crc : Nat
deriving DecidableEq

/-- Outcome of running a Rust function that returns `Result<α, ε>` but may
also abort: `panic` covers index-out-of-bounds, `Option::unwrap` on `Err`,
and arithmetic-overflow aborts. -/
inductive PResult (ε α : Type) where
  | ok (a : α)
  | err (e : ε)
  | panic
deriving DecidableEq

/-- `u32::to_be_bytes`. -/
def u32ToBeBytes (n : Nat) : List Nat :=
  [n / 2 ^ 24 % 256, n / 2 ^ 16 % 256, n / 2 ^ 8 % 256, n % 256]

/-- `u32::from_be_bytes` on four u8 values. -/
def u32FromBeBytes (b0 b1 b2 b3 : Nat) : Nat :=
  b0 * 2 ^ 24 + b1 * 2 ^ 16 + b2 * 2 ^ 8 + b3

/-- `Chunk::new` of src/chunk.rs: `length = data.len() as u32` (the cast
truncates mod 2^32), checksum over `chunk_type.bytes()` followed by the
payload. Never fails. -/
def Chunk.new (chunk_type : ChunkType) (data : List Nat) : Chunk :=
  let length := data.length % 2 ^ 32
  let whole := chunk_type.bytes ++ data
  let val := crc32 whole
  { length := length, chunk_type := chunk_type, chunk_data := data, crc := val }

/-- `Chunk::as_bytes` of src/chunk.rs: big-endian length, type bytes,
payload, big-endian crc. -/
def Chunk.as_bytes (self : Chunk) : List Nat :=
  u32ToBeBytes self.length ++ self.chunk_type.bytes ++ self.chunk_data ++ u32ToBeBytes self.crc

/-- `impl TryFrom<&[u8]> for Chunk` of src/chunk.rs, line by line:
reads `value[0..4]` as a big-endian length (panics when fewer than 4 bytes
exist), `ChunkType::try_from([value[4..8]]).unwrap()` (panics when fewer
than 8 bytes exist or the type bytes are not letters), computes `len - 12`
(usize subtraction, which aborts on underflow when `len < 12`), compares it
with the declared length (`Err(Length)` on mismatch), slices the payload
`value[8..8 + length]` and the stored crc `value[len-4..]`, recomputes the
checksum over `value[4..len-4]` and returns `Err(Crc)` on mismatch,
otherwise the parsed chunk. -/
def Chunk.try_from (value : List Nat) : PResult InvalidChunk Chunk :=
  if value.length < 4 then .panic
  else
    let length := u32FromBeBytes (value.getD 0 0) (value.getD 1 0) (value.getD 2 0)
      (value.getD 3 0)
    if value.length < 8 then .panic
    else
      match ChunkType.try_from (value.getD 4 0) (value.getD 5 0) (value.getD 6 0)
          (value.getD 7 0) with
      | .error _ => .panic
      | .ok chunk_type =>
        let len := value.length
        if len < 12 then .panic
        else if length ≠ len - 12 then .err .Length
        else
          let chunk_data := (value.drop 8).take length
          let crc := u32FromBeBytes (value.getD (len - 4) 0) (value.getD (len - 3) 0)
            (value.getD (len - 2) 0) (value.getD (len - 1) 0)
          let chunk : Chunk := ⟨length, chunk_type, chunk_data, crc⟩
          let val := crc32 ((value.drop 4).take (len - 8))
          if val ≠ crc then .err .Crc else .ok chunk

/-- The ASCII bytes of the fixture message
"This is where your secret message will be!" from the repository's tests. -/
def fixtureMessage : List Nat :=
  [84, 104, 105, 115, 32, 105, 115, 32, 119, 104, 101, 114, 101, 32, 121, 111,
   117, 114, 32, 115, 101, 99, 114, 101, 116, 32, 109, 101, 115, 115, 97, 103,
   101, 32, 119, 105, 108, 108, 32, 98, 101, 33]

/-- The ChunkType "RuSt" used throughout the repository's tests. -/
def rustType : ChunkType := ⟨82, 117, 83, 116⟩

/-- The serialized fixture buffer the repository's tests feed to
`Chunk::try_from`. -/
def fixtureBuffer : List Nat :=
  [0, 0, 0, 42] ++ rustType.bytes ++ fixtureMessage ++ u32ToBeBytes 2882656334

/-- The Chunk value the fixture buffer decodes to. -/
def fixtureChunk : Chunk := ⟨42, rustType, fixtureMessage, 2882656334⟩

section Helpers

/-- A property the claims quantifying over 4-byte type fields use: the byte
is an ASCII letter, in [65,90] or [97,122]. -/
def isAsciiLetter (v : Nat) : Prop :=
  (65 ≤ v ∧ v ≤ 90) ∨ (97 ≤ v ∧ v ≤ 122)

instance (v : Nat) : Decidable (isAsciiLetter v) := by
  unfold isAsciiLetter; exact inferInstance

theorem check_eq_ite (val : Nat) :
    check val = if isAsciiLetter val then .ok val else .error .InvalidChunk := by
  unfold check isAsciiLetter
  split_ifs <;> first | rfl | omega

theorem chunkType_try_from_eq (v0 v1 v2 v3 : Nat) :
    ChunkType.try_from v0 v1 v2 v3 =
      if isAsciiLetter v0 ∧ isAsciiLetter v1 ∧ isAsciiLetter v2 ∧ isAsciiLetter v3
      then .ok ⟨v0, v1, v2, v3⟩ else .error .InvalidChunk := by
  unfold ChunkType.try_from
  rw [check_eq_ite v0, check_eq_ite v1, check_eq_ite v2, check_eq_ite v3]
  by_cases h0 : isAsciiLetter v0 <;> by_cases h1 : isAsciiLetter v1 <;>
    by_cases h2 : isAsciiLetter v2 <;> by_cases h3 : isAsciiLetter v3 <;>
    simp [h0, h1, h2, h3]

theorem chunkType_try_from_ok (v0 v1 v2 v3 : Nat) (t : ChunkType)
    (h : ChunkType.try_from v0 v1 v2 v3 = .ok t) :
    t = ⟨v0, v1, v2, v3⟩ ∧ isAsciiLetter v0 ∧ isAsciiLetter v1 ∧
      isAsciiLetter v2 ∧ isAsciiLetter v3 := by
  rw [chunkType_try_from_eq] at h
  split_ifs at h with hall
  · cases h
    exact ⟨rfl, hall⟩

end Helpers

section ByteHelpers

theorem toBe_fromBe (b0 b1 b2 b3 : Nat) (h0 : b0 < 256) (h1 : b1 < 256)
    (h2 : b2 < 256) (h3 : b3 < 256) :
    u32ToBeBytes (u32FromBeBytes b0 b1 b2 b3) = [b0, b1, b2, b3] := by
  unfold u32ToBeBytes u32FromBeBytes
  simp only [List.cons.injEq, and_true]
  norm_num
  omega

theorem fromBe_toBe (n : Nat) (h : n < 2 ^ 32) :
    u32FromBeBytes (n / 2 ^ 24 % 256) (n / 2 ^ 16 % 256) (n / 2 ^ 8 % 256) (n % 256) = n := by
  unfold u32FromBeBytes
  norm_num
  omega

theorem fromBe_inj (a0 a1 a2 a3 b0 b1 b2 b3 : Nat)
    (ha0 : a0 < 256) (ha1 : a1 < 256) (ha2 : a2 < 256) (ha3 : a3 < 256)
    (hb0 : b0 < 256) (hb1 : b1 < 256) (hb2 : b2 < 256) (hb3 : b3 < 256)
    (h : u32FromBeBytes a0 a1 a2 a3 = u32FromBeBytes b0 b1 b2 b3) :
    a0 = b0 ∧ a1 = b1 ∧ a2 = b2 ∧ a3 = b3 := by
  unfold u32FromBeBytes at h
  norm_num at h
  omega

end ByteHelpers

section ListHelpers

theorem getD_drop (l : List Nat) (n i : Nat) :
    (l.drop n).getD i 0 = l.getD (n + i) 0 := by
  simp [List.getD_eq_getElem?_getD, List.getElem?_drop]

theorem getD_lt_of_mem {l : List Nat} (hb : ∀ x ∈ l, x < 256) {i : Nat}
    (hi : i < l.length) : l.getD i 0 < 256 := by
  rw [List.getD_eq_getElem l 0 hi]
  exact hb _ (List.getElem_mem hi)

theorem take_four {l : List Nat} (h : 4 ≤ l.length) :
    l.take 4 = [l.getD 0 0, l.getD 1 0, l.getD 2 0, l.getD 3 0] := by
  rcases l with _ | ⟨a, l⟩
  · simp at h
  rcases l with _ | ⟨b, l⟩
  · simp at h
  rcases l with _ | ⟨c, l⟩
  · simp at h
  rcases l with _ | ⟨d, l⟩
  · simp at h
  simp [List.getD]

theorem list_eq_of_length_four {l : List Nat} (h : l.length = 4) :
    l = [l.getD 0 0, l.getD 1 0, l.getD 2 0, l.getD 3 0] := by
  rcases l with _ | ⟨a, l⟩
  · simp at h
  rcases l with _ | ⟨b, l⟩
  · simp at h
  rcases l with _ | ⟨c, l⟩
  · simp at h
  rcases l with _ | ⟨d, l⟩
  · simp at h
  rcases l with _ | ⟨e, l⟩
  · simp [List.getD]
  · simp at h

theorem drop_last_four {l : List Nat} (h : 4 ≤ l.length) :
    l.drop (l.length - 4) =
      [l.getD (l.length - 4) 0, l.getD (l.length - 3) 0,
       l.getD (l.length - 2) 0, l.getD (l.length - 1) 0] := by
  have hlen : (l.drop (l.length - 4)).length = 4 := by
    simp
    omega
  rw [list_eq_of_length_four hlen]
  simp only [getD_drop]
  refine congrArg₂ _ (by congr 1 <;> omega) ?_
  refine congrArg₂ _ (by congr 1 <;> omega) ?_
  refine congrArg₂ _ (by congr 1 <;> omega) ?_
  refine congrArg₂ _ (by congr 1 <;> omega) rfl

end ListHelpers

section TryFromInversion

/-- Zeta-reduced restatement of Chunk.try_from (the let-bindings inlined),
definitionally equal to it; used to drive the case analysis. -/
theorem chunk_try_from_eq (value : List Nat) :
    Chunk.try_from value =
      if value.length < 4 then .panic
      else if value.length < 8 then .panic
      else
        match ChunkType.try_from (value.getD 4 0) (value.getD 5 0) (value.getD 6 0)
            (value.getD 7 0) with
        | .error _ => .panic
        | .ok chunk_type =>
          if value.length < 12 then .panic
          else if u32FromBeBytes (value.getD 0 0) (value.getD 1 0) (value.getD 2 0)
              (value.getD 3 0) ≠ value.length - 12 then .err .Length
          else if crc32 ((value.drop 4).take (value.length - 8)) ≠
              u32FromBeBytes (value.getD (value.length - 4) 0) (value.getD (value.length - 3) 0)
                (value.getD (value.length - 2) 0) (value.getD (value.length - 1) 0)
            then .err .Crc
          else .ok ⟨u32FromBeBytes (value.getD 0 0) (value.getD 1 0) (value.getD 2 0)
              (value.getD 3 0), chunk_type,
              (value.drop 8).take (u32FromBeBytes (value.getD 0 0) (value.getD 1 0)
                (value.getD 2 0) (value.getD 3 0)),
              u32FromBeBytes (value.getD (value.length - 4) 0) (value.getD (value.length - 3) 0)
                (value.getD (value.length - 2) 0) (value.getD (value.length - 1) 0)⟩ :=
  rfl

theorem chunk_try_from_ok_iff (value : List Nat) (c : Chunk) :
    Chunk.try_from value = .ok c ↔
      12 ≤ value.length ∧
      ChunkType.try_from (value.getD 4 0) (value.getD 5 0) (value.getD 6 0)
        (value.getD 7 0) = .ok c.chunk_type ∧
      c.length = u32FromBeBytes (value.getD 0 0) (value.getD 1 0) (value.getD 2 0)
        (value.getD 3 0) ∧
      c.length = value.length - 12 ∧
      c.chunk_data = (value.drop 8).take c.length ∧
      c.crc = u32FromBeBytes (value.getD (value.length - 4) 0)
        (value.getD (value.length - 3) 0) (value.getD (value.length - 2) 0)
        (value.getD (value.length - 1) 0) ∧
      crc32 ((value.drop 4).take (value.length - 8)) = c.crc := by
  constructor
  · intro h
    rw [chunk_try_from_eq] at h
    by_cases h4 : value.length < 4
    · rw [if_pos h4] at h
      exact absurd h (by simp)
    rw [if_neg h4] at h
    by_cases h8 : value.length < 8
    · rw [if_pos h8] at h
      exact absurd h (by simp)
    rw [if_neg h8] at h
    rcases hct : ChunkType.try_from (value.getD 4 0) (value.getD 5 0) (value.getD 6 0)
        (value.getD 7 0) with e | ct
    · rw [hct] at h
      exact absurd h (by simp)
    rw [hct] at h
    dsimp only [] at h
    by_cases h12 : value.length < 12
    · rw [if_pos h12] at h
      exact absurd h (by simp)
    rw [if_neg h12] at h
    by_cases hne : u32FromBeBytes (value.getD 0 0) (value.getD 1 0) (value.getD 2 0)
        (value.getD 3 0) ≠ value.length - 12
    · rw [if_pos hne] at h
      exact absurd h (by simp)
    rw [if_neg hne] at h
    by_cases hcr : crc32 ((value.drop 4).take (value.length - 8)) ≠
        u32FromBeBytes (value.getD (value.length - 4) 0) (value.getD (value.length - 3) 0)
          (value.getD (value.length - 2) 0) (value.getD (value.length - 1) 0)
    · rw [if_pos hcr] at h
      exact absurd h (by simp)
    rw [if_neg hcr] at h
    simp only [PResult.ok.injEq] at h
    subst h
    push_neg at hne hcr
    exact ⟨by omega, rfl, rfl, hne, rfl, rfl, hcr⟩
  · rintro ⟨hlen, hct, hl1, hl2, hdata, hcrc, hval⟩
    rw [chunk_try_from_eq, if_neg (by omega), if_neg (by omega), hct]
    dsimp only []
    rw [if_neg (by omega)]
    rw [if_neg (show ¬(u32FromBeBytes (value.getD 0 0) (value.getD 1 0)
      (value.getD 2 0) (value.getD 3 0) ≠ value.length - 12) by rw [← hl1]; omega)]
    rw [if_neg (show ¬(crc32 ((value.drop 4).take (value.length - 8)) ≠
      u32FromBeBytes (value.getD (value.length - 4) 0) (value.getD (value.length - 3) 0)
        (value.getD (value.length - 2) 0) (value.getD (value.length - 1) 0)) by
        rw [hval, hcrc]
        exact fun hh => hh rfl)]
    rw [← hl1, ← hdata, ← hcrc]

end TryFromInversion

/-- C7: ChunkType.try_from succeeds, returning the ChunkType made of the four
input bytes, exactly when every byte lies in [65,90] ∪ [97,122], and returns
the InvalidChunk (invalid-type) error on every other input. -/
theorem try_from_accepts_exactly_letters (v0 v1 v2 v3 : Nat) :
    ChunkType.try_from v0 v1 v2 v3 =
      if isAsciiLetter v0 ∧ isAsciiLetter v1 ∧ isAsciiLetter v2 ∧ isAsciiLetter v3
      then .ok ⟨v0, v1, v2, v3⟩ else .error .InvalidChunk :=
  chunkType_try_from_eq v0 v1 v2 v3

/-- C8: for every ChunkType whose construction via try_from succeeds (all four
bytes ASCII letters), the bit-5 test is_reserved_bit_valid returns the same
boolean as the uppercase-range test is_valid (65 ≤ byte 2 ≤ 90). -/
theorem reserved_bit_matches_uppercase (t : ChunkType)
    (h : ChunkType.try_from t.a t.b t.c t.d = .ok t) :
    t.is_reserved_bit_valid = t.is_valid := by
  obtain ⟨-, -, -, hc, -⟩ := chunkType_try_from_ok _ _ _ _ _ h
  have key : ∀ x, x < 123 → isAsciiLetter x →
      ((x &&& (1 <<< 5) == 0) = (65 ≤ x && x ≤ 90)) := by decide
  unfold ChunkType.is_reserved_bit_valid ChunkType.is_valid
  exact key t.c (by rcases hc with h' | h' <;> omega) hc

/-- Witness for C8 at the concrete ChunkType "RuSt". -/
theorem reserved_bit_matches_uppercase_witness :
    ChunkType.try_from rustType.a rustType.b rustType.c rustType.d = .ok rustType ∧
    rustType.is_reserved_bit_valid = rustType.is_valid :=
  ⟨by rfl, reserved_bit_matches_uppercase rustType (by rfl)⟩

/-- C9: Chunk.new applied to the TypeCode "RuSt" and the 42-byte fixture
payload yields length 42 and crc 2882656334. -/
theorem fixture_chunk_length_and_crc :
    (Chunk.new rustType fixtureMessage).length = 42 ∧
    (Chunk.new rustType fixtureMessage).crc = 2882656334 := by
  constructor <;> rfl

/-- C10: Chunk.try_from on the empty buffer panics (the `value[0]` read is
out of bounds) instead of returning a typed error. -/
theorem try_from_empty_buffer_panics : Chunk.try_from [] = .panic := by rfl

/-- C1: on a 12-byte buffer whose type field holds digit bytes ('1' = 49,
outside the ASCII-letter ranges), Chunk.try_from panics — the code calls
.unwrap() on the failed ChunkType::try_from — rather than returning the
typed error InvalidChunk.Type. -/
theorem invalid_type_byte_panics :
    Chunk.try_from [0, 0, 0, 0, 49, 49, 49, 49, 0, 0, 0, 0] = .panic := by rfl

/-- C5: on the 4-byte buffer [0,0,0,1], whose total size (4) differs from its
declared length plus 12 (13), Chunk.try_from panics (reading value[4] is out
of bounds) instead of failing with InvalidChunk.Length. -/
theorem short_buffer_panics_instead_of_length_error :
    Chunk.try_from [0, 0, 0, 1] = .panic := by rfl

/-- C2: every byte buffer accepted by Chunk.try_from is reproduced exactly by
Chunk.as_bytes on the resulting Chunk. -/
theorem decode_encode_exact_roundtrip (value : List Nat) (c : Chunk)
    (hb : ∀ x ∈ value, x < 256) (h : Chunk.try_from value = .ok c) :
    c.as_bytes = value := by
  rw [chunk_try_from_ok_iff] at h
  obtain ⟨hlen, hct, hl1, hl2, hdata, hcrc, hval⟩ := h
  obtain ⟨hteq, -, -, -, -⟩ := chunkType_try_from_ok _ _ _ _ _ hct
  have hseg1 : u32ToBeBytes c.length = value.take 4 := by
    rw [hl1, toBe_fromBe _ _ _ _ (getD_lt_of_mem hb (by omega)) (getD_lt_of_mem hb (by omega))
      (getD_lt_of_mem hb (by omega)) (getD_lt_of_mem hb (by omega))]
    exact (take_four (by omega)).symm
  have hseg2 : c.chunk_type.bytes = (value.drop 4).take 4 := by
    rw [hteq, take_four (l := value.drop 4) (by simp; omega)]
    simp [getD_drop, ChunkType.bytes]
  have hseg3 : c.chunk_data = (value.drop 8).take (value.length - 12) := by
    rw [hdata, hl2]
  have hseg4 : u32ToBeBytes c.crc = value.drop (value.length - 4) := by
    rw [hcrc, toBe_fromBe _ _ _ _ (getD_lt_of_mem hb (by omega)) (getD_lt_of_mem hb (by omega))
      (getD_lt_of_mem hb (by omega)) (getD_lt_of_mem hb (by omega))]
    exact (drop_last_four (by omega)).symm
  have hdecomp : value = value.take 4 ++ ((value.drop 4).take 4 ++
      ((value.drop 8).take (value.length - 12) ++ value.drop (value.length - 4))) := by
    have e8 : 8 + (value.length - 12) = value.length - 4 := by omega
    have hd1 : value.drop (value.length - 4) = (value.drop 8).drop (value.length - 12) := by
      rw [List.drop_drop, e8]
    have h1 : (value.drop 8).take (value.length - 12) ++ value.drop (value.length - 4) =
        value.drop 8 := by
      rw [hd1, List.take_append_drop]
    have hd2 : value.drop 8 = (value.drop 4).drop 4 := by
      rw [List.drop_drop]
    have h2 : (value.drop 4).take 4 ++ value.drop 8 = value.drop 4 := by
      rw [hd2, List.take_append_drop]
    calc value = value.take 4 ++ value.drop 4 := (List.take_append_drop 4 value).symm
      _ = value.take 4 ++ ((value.drop 4).take 4 ++ value.drop 8) := by rw [h2]
      _ = value.take 4 ++ ((value.drop 4).take 4 ++
          ((value.drop 8).take (value.length - 12) ++ value.drop (value.length - 4))) := by
          rw [h1]
  unfold Chunk.as_bytes
  rw [hseg1, hseg2, hseg3, hseg4]
  simp only [List.append_assoc]
  exact hdecomp.symm

/-- Witness for C2 at the repository's fixture buffer. -/
theorem decode_encode_exact_roundtrip_witness :
    (∀ x ∈ fixtureBuffer, x < 256) ∧
    Chunk.try_from fixtureBuffer = .ok fixtureChunk ∧
    fixtureChunk.as_bytes = fixtureBuffer :=
  ⟨by decide, by rfl,
    decode_encode_exact_roundtrip fixtureBuffer fixtureChunk (by decide) (by rfl)⟩

/-- C4 counterexample: Chunk.new on a payload of exactly 2^32 bytes stores
length 0 (the `as u32` cast truncates), so the length invariant fails for
payloads of 2^32 bytes or more. -/
theorem new_length_field_truncates :
    (Chunk.new rustType (List.replicate (2 ^ 32) 0)).length ≠
    (Chunk.new rustType (List.replicate (2 ^ 32) 0)).chunk_data.length := by
  have hl : (Chunk.new rustType (List.replicate (2 ^ 32) 0)).length = 0 := by
    simp only [Chunk.new, List.length_replicate]
    exact Nat.mod_self _
  have hd : (Chunk.new rustType (List.replicate (2 ^ 32) 0)).chunk_data.length = 2 ^ 32 := by
    simp only [Chunk.new, List.length_replicate]
  rw [hl, hd]
  norm_num

/-- C4 (amended): every Chunk produced by Chunk.new satisfies the checksum
invariant, and satisfies the length invariant whenever the payload has fewer
than 2^32 bytes (for larger payloads the length field is the payload length
mod 2^32); every Chunk produced by Chunk.try_from satisfies both
invariants. -/
theorem chunk_constructor_invariants :
    (∀ (t : ChunkType) (data : List Nat),
      (Chunk.new t data).crc =
        crc32 ((Chunk.new t data).chunk_type.bytes ++ (Chunk.new t data).chunk_data) ∧
      (data.length < 2 ^ 32 →
        (Chunk.new t data).length = (Chunk.new t data).chunk_data.length)) ∧
    (∀ (value : List Nat) (c : Chunk), Chunk.try_from value = .ok c →
      c.crc = crc32 (c.chunk_type.bytes ++ c.chunk_data) ∧
      c.length = c.chunk_data.length) := by
  constructor
  · intro t data
    refine ⟨rfl, fun h => ?_⟩
    show data.length % 2 ^ 32 = data.length
    omega
  · intro value c h
    rw [chunk_try_from_ok_iff] at h
    obtain ⟨hlen, hct, hl1, hl2, hdata, hcrc, hval⟩ := h
    obtain ⟨hteq, -, -, -, -⟩ := chunkType_try_from_ok _ _ _ _ _ hct
    have hseg2 : c.chunk_type.bytes = (value.drop 4).take 4 := by
      rw [hteq, take_four (l := value.drop 4) (by simp; omega)]
      simp [getD_drop, ChunkType.bytes]
    have hseg3 : c.chunk_data = (value.drop 8).take (value.length - 12) := by
      rw [hdata, hl2]
    constructor
    · rw [← hval]
      congr 1
      rw [hseg2, hseg3]
      have hd2 : value.drop 8 = (value.drop 4).drop 4 := by
        rw [List.drop_drop]
      rw [hd2, ← List.take_add]
      congr 1
      omega
    · rw [hdata]
      simp only [List.length_take, List.length_drop]
      omega

/-- Witness for C4: both constructors at the repository's fixture inputs. -/
theorem chunk_constructor_invariants_witness :
    ((Chunk.new rustType fixtureMessage).crc =
      crc32 ((Chunk.new rustType fixtureMessage).chunk_type.bytes ++
        (Chunk.new rustType fixtureMessage).chunk_data) ∧
     (Chunk.new rustType fixtureMessage).length =
       (Chunk.new rustType fixtureMessage).chunk_data.length) ∧
    (fixtureChunk.crc = crc32 (fixtureChunk.chunk_type.bytes ++ fixtureChunk.chunk_data) ∧
     fixtureChunk.length = fixtureChunk.chunk_data.length) :=
  ⟨⟨(chunk_constructor_invariants.1 rustType fixtureMessage).1,
    (chunk_constructor_invariants.1 rustType fixtureMessage).2 (by decide)⟩,
   chunk_constructor_invariants.2 fixtureBuffer fixtureChunk (by rfl)⟩

section CrcBounds

theorem crcBit_lt {c : Nat} (h : c < 2 ^ 32) : crcBit c < 2 ^ 32 := by
  have h1 : c >>> 1 < 2 ^ 32 := by
    rw [Nat.shiftRight_eq_div_pow]
    omega
  unfold crcBit
  split
  · exact Nat.xor_lt_two_pow h1 (by norm_num)
  · exact h1

theorem crcBits_lt (k : Nat) {c : Nat} (h : c < 2 ^ 32) : crcBits k c < 2 ^ 32 := by
  induction k generalizing c with
  | zero => exact h
  | succ n ih => exact ih (crcBit_lt h)

theorem crc32Update_lt {c b : Nat} (hc : c < 2 ^ 32) (hb : b < 256) :
    crc32Update c b < 2 ^ 32 :=
  crcBits_lt 8 (Nat.xor_lt_two_pow hc (show b < 2 ^ 32 by omega))

theorem crc32_lt {data : List Nat} (h : ∀ x ∈ data, x < 256) : crc32 data < 2 ^ 32 := by
  have hfold : ∀ (l : List Nat) (acc : Nat), (∀ x ∈ l, x < 256) → acc < 2 ^ 32 →
      l.foldl crc32Update acc < 2 ^ 32 := by
    intro l
    induction l with
    | nil => exact fun acc _ hacc => hacc
    | cons x xs ih =>
      intro acc hl hacc
      exact ih _ (fun y hy => hl y (List.mem_cons_of_mem _ hy))
        (crc32Update_lt hacc (hl x (List.mem_cons_self _ _)))
  exact Nat.xor_lt_two_pow (hfold data _ h (by norm_num)) (by norm_num)

end CrcBounds

theorem cons8_append2 (x0 x1 x2 x3 x4 x5 x6 x7 : Nat) (l m : List Nat) :
    (([x0, x1, x2, x3] ++ [x4, x5, x6, x7]) ++ l) ++ m =
      x0 :: x1 :: x2 :: x3 :: x4 :: x5 :: x6 :: x7 :: (l ++ m) := by
  simp

theorem drop_length_sub_four (A : List Nat) (x : Nat) :
    (A ++ u32ToBeBytes x).drop ((A ++ u32ToBeBytes x).length - 4) = u32ToBeBytes x := by
  have h : (A ++ u32ToBeBytes x).length - 4 = A.length := by
    simp [u32ToBeBytes]
  rw [h, List.drop_left]

theorem zero_length_rust_header_err (rest : List Nat) (h4 : 4 ≤ rest.length)
    (hne : rest.length ≠ 4) :
    Chunk.try_from (0 :: 0 :: 0 :: 0 :: 82 :: 117 :: 83 :: 116 :: rest) = .err .Length := by
  have hlen : (0 :: 0 :: 0 :: 0 :: 82 :: 117 :: 83 :: 116 :: rest).length = rest.length + 8 := by
    simp
  rw [chunk_try_from_eq]
  rw [if_neg (by rw [hlen]; omega), if_neg (by rw [hlen]; omega)]
  have e1 : ChunkType.try_from
      ((0 :: 0 :: 0 :: 0 :: 82 :: 117 :: 83 :: 116 :: rest).getD 4 0)
      ((0 :: 0 :: 0 :: 0 :: 82 :: 117 :: 83 :: 116 :: rest).getD 5 0)
      ((0 :: 0 :: 0 :: 0 :: 82 :: 117 :: 83 :: 116 :: rest).getD 6 0)
      ((0 :: 0 :: 0 :: 0 :: 82 :: 117 :: 83 :: 116 :: rest).getD 7 0) =
      .ok ⟨82, 117, 83, 116⟩ := rfl
  rw [e1]
  dsimp only []
  rw [if_neg (by rw [hlen]; omega)]
  have e0 : u32FromBeBytes
      ((0 :: 0 :: 0 :: 0 :: 82 :: 117 :: 83 :: 116 :: rest).getD 0 0)
      ((0 :: 0 :: 0 :: 0 :: 82 :: 117 :: 83 :: 116 :: rest).getD 1 0)
      ((0 :: 0 :: 0 :: 0 :: 82 :: 117 :: 83 :: 116 :: rest).getD 2 0)
      ((0 :: 0 :: 0 :: 0 :: 82 :: 117 :: 83 :: 116 :: rest).getD 3 0) = 0 := by
    simp [u32FromBeBytes]
  rw [if_pos (by rw [e0, hlen]; omega)]

/-- C3 counterexample: for the valid TypeCode "RuSt" and the payload of
exactly 2^32 zero bytes, Chunk.try_from on the encoding of Chunk.new fails
with the Length error (the stored length field is 2^32 mod 2^32 = 0 while
the buffer carries 2^32 payload bytes), so the stated round-trip does not
hold for every payload. -/
theorem create_decode_fails_at_two_pow_32 :
    Chunk.try_from (Chunk.new rustType (List.replicate (2 ^ 32) 0)).as_bytes =
      .err .Length := by
  have h4' : (u32ToBeBytes (crc32 (rustType.bytes ++ List.replicate (2 ^ 32) 0))).length = 4 :=
    rfl
  have hv : (Chunk.new rustType (List.replicate (2 ^ 32) 0)).as_bytes =
      0 :: 0 :: 0 :: 0 :: 82 :: 117 :: 83 :: 116 ::
      (List.replicate (2 ^ 32) 0 ++
        u32ToBeBytes (crc32 (rustType.bytes ++ List.replicate (2 ^ 32) 0))) := by
    simp only [Chunk.as_bytes, Chunk.new, List.length_replicate]
    rw [Nat.mod_self]
    have hz : u32ToBeBytes 0 = [0, 0, 0, 0] := rfl
    have hrust : ChunkType.bytes rustType = [82, 117, 83, 116] := rfl
    rw [hz, hrust, cons8_append2]
  rw [hv]
  apply zero_length_rust_header_err
  · rw [List.length_append, List.length_replicate, h4']
    exact Nat.le_add_left 4 (2 ^ 32)
  · rw [List.length_append, List.length_replicate, h4']
    exact Nat.ne_of_gt (Nat.lt_add_of_pos_left (by positivity))

/-- C3 (amended): for every TypeCode accepted by ChunkType.try_from and every
payload of u8 values with fewer than 2^32 bytes, decoding the encoding of
Chunk.new succeeds and returns that very Chunk (hence identical length, type,
payload, and checksum); the 2^32-byte counterexample above is what forces the
length bound. -/
theorem create_encode_decode_roundtrip (t : ChunkType) (p : List Nat)
    (ht : ChunkType.try_from t.a t.b t.c t.d = .ok t)
    (hp : p.length < 2 ^ 32) (hb : ∀ x ∈ p, x < 256) :
    Chunk.try_from (Chunk.new t p).as_bytes = .ok (Chunk.new t p) := by
  obtain ⟨-, l0, l1, l2, l3⟩ := chunkType_try_from_ok _ _ _ _ _ ht
  have hC : crc32 (t.bytes ++ p) < 2 ^ 32 := by
    apply crc32_lt
    intro x hx
    rcases List.mem_append.mp hx with hx | hx
    · simp only [ChunkType.bytes, List.mem_cons, List.not_mem_nil, or_false] at hx
      unfold isAsciiLetter at l0 l1 l2 l3
      rcases hx with rfl | rfl | rfl | rfl <;> omega
    · exact hb x hx
  have hchain : (Chunk.new t p).as_bytes = (p.length / 2 ^ 24 % 256) :: (p.length / 2 ^ 16 % 256) :: (p.length / 2 ^ 8 % 256) :: (p.length % 256) :: t.a :: t.b :: t.c :: t.d :: (p ++ u32ToBeBytes (crc32 (t.bytes ++ p))) := by
    show u32ToBeBytes (p.length % 2 ^ 32) ++ t.bytes ++ p ++
        u32ToBeBytes (crc32 (t.bytes ++ p)) = _
    rw [Nat.mod_eq_of_lt hp]
    show (([(p.length / 2 ^ 24 % 256), (p.length / 2 ^ 16 % 256), (p.length / 2 ^ 8 % 256),
        (p.length % 256)] ++ [t.a, t.b, t.c, t.d]) ++ p) ++
        u32ToBeBytes (crc32 (t.bytes ++ p)) = _
    rw [cons8_append2]
  have hVlen : ((p.length / 2 ^ 24 % 256) :: (p.length / 2 ^ 16 % 256) :: (p.length / 2 ^ 8 % 256) :: (p.length % 256) :: t.a :: t.b :: t.c :: t.d :: (p ++ u32ToBeBytes (crc32 (t.bytes ++ p)))).length = p.length + 12 := by
    simp only [List.length_cons, List.length_append, u32ToBeBytes, List.length_nil]
  rw [hchain, chunk_try_from_ok_iff]
  refine ⟨by rw [hVlen]; omega, ?_, ?_, ?_, ?_, ?_, ?_⟩
  · exact ht
  · show p.length % 2 ^ 32 = u32FromBeBytes (p.length / 2 ^ 24 % 256) (p.length / 2 ^ 16 % 256)
      (p.length / 2 ^ 8 % 256) (p.length % 256)
    rw [Nat.mod_eq_of_lt hp, fromBe_toBe p.length hp]
  · rw [hVlen]
    show p.length % 2 ^ 32 = p.length + 12 - 12
    omega
  · show p = (p ++ u32ToBeBytes (crc32 (t.bytes ++ p))).take (p.length % 2 ^ 32)
    rw [Nat.mod_eq_of_lt hp]
    exact (List.take_left p _).symm
  · have hWV : (p.length / 2 ^ 24 % 256) :: (p.length / 2 ^ 16 % 256) :: (p.length / 2 ^ 8 % 256) :: (p.length % 256) :: t.a :: t.b :: t.c :: t.d :: (p ++ u32ToBeBytes (crc32 (t.bytes ++ p))) = ((p.length / 2 ^ 24 % 256) :: (p.length / 2 ^ 16 % 256) :: (p.length / 2 ^ 8 % 256) :: (p.length % 256) :: t.a :: t.b :: t.c :: t.d :: p) ++ u32ToBeBytes (crc32 (t.bytes ++ p)) := by
      simp [List.cons_append]
    have hVtail : ((p.length / 2 ^ 24 % 256) :: (p.length / 2 ^ 16 % 256) :: (p.length / 2 ^ 8 % 256) :: (p.length % 256) :: t.a :: t.b :: t.c :: t.d :: (p ++ u32ToBeBytes (crc32 (t.bytes ++ p)))).drop (((p.length / 2 ^ 24 % 256) :: (p.length / 2 ^ 16 % 256) :: (p.length / 2 ^ 8 % 256) :: (p.length % 256) :: t.a :: t.b :: t.c :: t.d :: (p ++ u32ToBeBytes (crc32 (t.bytes ++ p)))).length - 4) = u32ToBeBytes (crc32 (t.bytes ++ p)) := by
      rw [hWV]
      exact drop_length_sub_four _ _
    have hfour := (drop_last_four (l := (p.length / 2 ^ 24 % 256) :: (p.length / 2 ^ 16 % 256) :: (p.length / 2 ^ 8 % 256) :: (p.length % 256) :: t.a :: t.b :: t.c :: t.d :: (p ++ u32ToBeBytes (crc32 (t.bytes ++ p)))) (by rw [hVlen]; omega)).symm.trans hVtail
    have e0 : ((p.length / 2 ^ 24 % 256) :: (p.length / 2 ^ 16 % 256) :: (p.length / 2 ^ 8 % 256) :: (p.length % 256) :: t.a :: t.b :: t.c :: t.d :: (p ++ u32ToBeBytes (crc32 (t.bytes ++ p)))).getD (((p.length / 2 ^ 24 % 256) :: (p.length / 2 ^ 16 % 256) :: (p.length / 2 ^ 8 % 256) :: (p.length % 256) :: t.a :: t.b :: t.c :: t.d :: (p ++ u32ToBeBytes (crc32 (t.bytes ++ p)))).length - 4) 0 = crc32 (t.bytes ++ p) / 2 ^ 24 % 256 :=
      congrArg (fun l => l.getD 0 0) hfour
    have e1 : ((p.length / 2 ^ 24 % 256) :: (p.length / 2 ^ 16 % 256) :: (p.length / 2 ^ 8 % 256) :: (p.length % 256) :: t.a :: t.b :: t.c :: t.d :: (p ++ u32ToBeBytes (crc32 (t.bytes ++ p)))).getD (((p.length / 2 ^ 24 % 256) :: (p.length / 2 ^ 16 % 256) :: (p.length / 2 ^ 8 % 256) :: (p.length % 256) :: t.a :: t.b :: t.c :: t.d :: (p ++ u32ToBeBytes (crc32 (t.bytes ++ p)))).length - 3) 0 = crc32 (t.bytes ++ p) / 2 ^ 16 % 256 :=
      congrArg (fun l => l.getD 1 0) hfour
    have e2 : ((p.length / 2 ^ 24 % 256) :: (p.length / 2 ^ 16 % 256) :: (p.length / 2 ^ 8 % 256) :: (p.length % 256) :: t.a :: t.b :: t.c :: t.d :: (p ++ u32ToBeBytes (crc32 (t.bytes ++ p)))).getD (((p.length / 2 ^ 24 % 256) :: (p.length / 2 ^ 16 % 256) :: (p.length / 2 ^ 8 % 256) :: (p.length % 256) :: t.a :: t.b :: t.c :: t.d :: (p ++ u32ToBeBytes (crc32 (t.bytes ++ p)))).length - 2) 0 = crc32 (t.bytes ++ p) / 2 ^ 8 % 256 :=
      congrArg (fun l => l.getD 2 0) hfour
    have e3 : ((p.length / 2 ^ 24 % 256) :: (p.length / 2 ^ 16 % 256) :: (p.length / 2 ^ 8 % 256) :: (p.length % 256) :: t.a :: t.b :: t.c :: t.d :: (p ++ u32ToBeBytes (crc32 (t.bytes ++ p)))).getD (((p.length / 2 ^ 24 % 256) :: (p.length / 2 ^ 16 % 256) :: (p.length / 2 ^ 8 % 256) :: (p.length % 256) :: t.a :: t.b :: t.c :: t.d :: (p ++ u32ToBeBytes (crc32 (t.bytes ++ p)))).length - 1) 0 = crc32 (t.bytes ++ p) % 256 :=
      congrArg (fun l => l.getD 3 0) hfour
    show crc32 (ChunkType.bytes t ++ p) = u32FromBeBytes (((p.length / 2 ^ 24 % 256) :: (p.length / 2 ^ 16 % 256) :: (p.length / 2 ^ 8 % 256) :: (p.length % 256) :: t.a :: t.b :: t.c :: t.d :: (p ++ u32ToBeBytes (crc32 (t.bytes ++ p)))).getD (((p.length / 2 ^ 24 % 256) :: (p.length / 2 ^ 16 % 256) :: (p.length / 2 ^ 8 % 256) :: (p.length % 256) :: t.a :: t.b :: t.c :: t.d :: (p ++ u32ToBeBytes (crc32 (t.bytes ++ p)))).length - 4) 0)
      (((p.length / 2 ^ 24 % 256) :: (p.length / 2 ^ 16 % 256) :: (p.length / 2 ^ 8 % 256) :: (p.length % 256) :: t.a :: t.b :: t.c :: t.d :: (p ++ u32ToBeBytes (crc32 (t.bytes ++ p)))).getD (((p.length / 2 ^ 24 % 256) :: (p.length / 2 ^ 16 % 256) :: (p.length / 2 ^ 8 % 256) :: (p.length % 256) :: t.a :: t.b :: t.c :: t.d :: (p ++ u32ToBeBytes (crc32 (t.bytes ++ p)))).length - 3) 0) (((p.length / 2 ^ 24 % 256) :: (p.length / 2 ^ 16 % 256) :: (p.length / 2 ^ 8 % 256) :: (p.length % 256) :: t.a :: t.b :: t.c :: t.d :: (p ++ u32ToBeBytes (crc32 (t.bytes ++ p)))).getD (((p.length / 2 ^ 24 % 256) :: (p.length / 2 ^ 16 % 256) :: (p.length / 2 ^ 8 % 256) :: (p.length % 256) :: t.a :: t.b :: t.c :: t.d :: (p ++ u32ToBeBytes (crc32 (t.bytes ++ p)))).length - 2) 0)
      (((p.length / 2 ^ 24 % 256) :: (p.length / 2 ^ 16 % 256) :: (p.length / 2 ^ 8 % 256) :: (p.length % 256) :: t.a :: t.b :: t.c :: t.d :: (p ++ u32ToBeBytes (crc32 (t.bytes ++ p)))).getD (((p.length / 2 ^ 24 % 256) :: (p.length / 2 ^ 16 % 256) :: (p.length / 2 ^ 8 % 256) :: (p.length % 256) :: t.a :: t.b :: t.c :: t.d :: (p ++ u32ToBeBytes (crc32 (t.bytes ++ p)))).length - 1) 0)
    rw [e0, e1, e2, e3, fromBe_toBe (crc32 (t.bytes ++ p)) hC]
  · have hdrop4 : ((p.length / 2 ^ 24 % 256) :: (p.length / 2 ^ 16 % 256) :: (p.length / 2 ^ 8 % 256) :: (p.length % 256) :: t.a :: t.b :: t.c :: t.d :: (p ++ u32ToBeBytes (crc32 (t.bytes ++ p)))).drop 4 = (t.a :: t.b :: t.c :: t.d :: p) ++
        u32ToBeBytes (crc32 (t.bytes ++ p)) := by
      show t.a :: t.b :: t.c :: t.d :: (p ++ u32ToBeBytes (crc32 (t.bytes ++ p))) = _
      simp [List.cons_append]
    rw [hdrop4, hVlen]
    have htake : ((t.a :: t.b :: t.c :: t.d :: p) ++
        u32ToBeBytes (crc32 (t.bytes ++ p))).take (p.length + 12 - 8) =
        t.a :: t.b :: t.c :: t.d :: p := by
      apply List.take_left'
      simp only [List.length_cons]
      omega
    rw [htake]
    rfl

/-- Witness for C3 at the RuSt fixture. -/
theorem create_encode_decode_roundtrip_witness :
    ChunkType.try_from rustType.a rustType.b rustType.c rustType.d = .ok rustType ∧
    fixtureMessage.length < 2 ^ 32 ∧ (∀ x ∈ fixtureMessage, x < 256) ∧
    Chunk.try_from (Chunk.new rustType fixtureMessage).as_bytes =
      .ok (Chunk.new rustType fixtureMessage) :=
  ⟨by rfl, by decide, by decide,
    create_encode_decode_roundtrip rustType fixtureMessage (by rfl) (by decide) (by decide)⟩

section SetHelpers

theorem getD_set_eq (l : List Nat) (i x : Nat) (h : i < l.length) :
    (l.set i x).getD i 0 = x := by
  simp [List.getD_eq_getElem?_getD, List.getElem?_set, h]

theorem getD_set_ne (l : List Nat) (i j x : Nat) (h : i ≠ j) :
    (l.set i x).getD j 0 = l.getD j 0 := by
  simp [List.getD_eq_getElem?_getD, List.getElem?_set_ne h]

theorem take_drop_set_outside (l : List Nat) (i m n x : Nat) (h : m + n ≤ i) :
    ((l.set i x).drop m).take n = (l.drop m).take n := by
  apply List.ext_getElem?
  intro j
  simp only [List.getElem?_take, List.getElem?_drop]
  split
  · rename_i hj
    rw [List.getElem?_set_ne (by omega)]
  · rfl

theorem shiftLeft_one_lt_256 {k : Nat} (h : k < 8) : (1 <<< k : Nat) < 256 := by
  rw [Nat.shiftLeft_eq, one_mul]
  calc (2 : Nat) ^ k < 2 ^ 8 := Nat.pow_lt_pow_right (by norm_num) h
    _ = 256 := by norm_num

theorem xor_flip_ne (b s : Nat) (hs : s ≠ 0) : b ^^^ s ≠ b := by
  intro heq
  apply hs
  calc s = b ^^^ (b ^^^ s) := by rw [← Nat.xor_assoc, Nat.xor_self, Nat.zero_xor]
    _ = b ^^^ b := by rw [heq]
    _ = 0 := Nat.xor_self _

end SetHelpers

/-- C6: (1) a buffer long enough whose type field validates and whose length
field matches, but whose stored 4-byte checksum differs from the CRC-32
recomputed over type bytes ++ payload, is rejected by Chunk.try_from with the
Crc error; (2) flipping any single bit of the checksum field (the last four
bytes) of a buffer that try_from accepted makes try_from fail with the Crc
error, never succeed; (3) a Chunk is returned only when the stored checksum
equals the recomputed one. -/
theorem crc_mismatch_rejected :
    (∀ (value : List Nat), 12 ≤ value.length →
      (∃ t, ChunkType.try_from (value.getD 4 0) (value.getD 5 0) (value.getD 6 0)
        (value.getD 7 0) = .ok t) →
      u32FromBeBytes (value.getD 0 0) (value.getD 1 0) (value.getD 2 0) (value.getD 3 0) =
        value.length - 12 →
      crc32 ((value.drop 4).take (value.length - 8)) ≠
        u32FromBeBytes (value.getD (value.length - 4) 0) (value.getD (value.length - 3) 0)
          (value.getD (value.length - 2) 0) (value.getD (value.length - 1) 0) →
      Chunk.try_from value = .err .Crc) ∧
    (∀ (value : List Nat) (c : Chunk) (i k : Nat),
      Chunk.try_from value = .ok c → (∀ x ∈ value, x < 256) →
      value.length - 4 ≤ i → i < value.length → k < 8 →
      Chunk.try_from (value.set i (value.getD i 0 ^^^ 1 <<< k)) = .err .Crc) ∧
    (∀ (value : List Nat) (c : Chunk), Chunk.try_from value = .ok c →
      c.crc = crc32 ((value.drop 4).take (value.length - 8))) := by
  refine ⟨?_, ?_, ?_⟩
  · rintro value h12 ⟨t, hct⟩ hlenf hcrcne
    rw [chunk_try_from_eq, if_neg (by omega), if_neg (by omega), hct]
    dsimp only []
    rw [if_neg (by omega), if_neg (show ¬(u32FromBeBytes (value.getD 0 0) (value.getD 1 0)
      (value.getD 2 0) (value.getD 3 0) ≠ value.length - 12) from fun hh => hh hlenf)]
    rw [if_pos hcrcne]
  · intro value c i k hok hb hi1 hi2 hk
    obtain ⟨hlen, hct, hl1, hl2, hdata, hcrc, hval⟩ := (chunk_try_from_ok_iff value c).mp hok
    have hL : (value.set i (value.getD i 0 ^^^ 1 <<< k)).length = value.length := List.length_set _ _ _
    have hb' : ∀ x ∈ value.set i (value.getD i 0 ^^^ 1 <<< k), x < 256 := by
      intro x hx
      rcases List.mem_or_eq_of_mem_set hx with hx | rfl
      · exact hb x hx
      · have h1 : value.getD i 0 < 2 ^ 8 := getD_lt_of_mem hb hi2
        have h2 : (1 <<< k : Nat) < 2 ^ 8 := shiftLeft_one_lt_256 hk
        exact Nat.xor_lt_two_pow h1 h2
    have g0 : (value.set i (value.getD i 0 ^^^ 1 <<< k)).getD 0 0 = value.getD 0 0 := getD_set_ne _ _ _ _ (by omega)
    have g1 : (value.set i (value.getD i 0 ^^^ 1 <<< k)).getD 1 0 = value.getD 1 0 := getD_set_ne _ _ _ _ (by omega)
    have g2 : (value.set i (value.getD i 0 ^^^ 1 <<< k)).getD 2 0 = value.getD 2 0 := getD_set_ne _ _ _ _ (by omega)
    have g3 : (value.set i (value.getD i 0 ^^^ 1 <<< k)).getD 3 0 = value.getD 3 0 := getD_set_ne _ _ _ _ (by omega)
    have g4 : (value.set i (value.getD i 0 ^^^ 1 <<< k)).getD 4 0 = value.getD 4 0 := getD_set_ne _ _ _ _ (by omega)
    have g5 : (value.set i (value.getD i 0 ^^^ 1 <<< k)).getD 5 0 = value.getD 5 0 := getD_set_ne _ _ _ _ (by omega)
    have g6 : (value.set i (value.getD i 0 ^^^ 1 <<< k)).getD 6 0 = value.getD 6 0 := getD_set_ne _ _ _ _ (by omega)
    have g7 : (value.set i (value.getD i 0 ^^^ 1 <<< k)).getD 7 0 = value.getD 7 0 := getD_set_ne _ _ _ _ (by omega)
    have hne : c.crc ≠ u32FromBeBytes ((value.set i (value.getD i 0 ^^^ 1 <<< k)).getD (value.length - 4) 0)
        ((value.set i (value.getD i 0 ^^^ 1 <<< k)).getD (value.length - 3) 0) ((value.set i (value.getD i 0 ^^^ 1 <<< k)).getD (value.length - 2) 0)
        ((value.set i (value.getD i 0 ^^^ 1 <<< k)).getD (value.length - 1) 0) := by
      intro hcontra
      rw [hcrc] at hcontra
      have ho0 : value.getD (value.length - 4) 0 < 256 := getD_lt_of_mem hb (by omega)
      have ho1 : value.getD (value.length - 3) 0 < 256 := getD_lt_of_mem hb (by omega)
      have ho2 : value.getD (value.length - 2) 0 < 256 := getD_lt_of_mem hb (by omega)
      have ho3 : value.getD (value.length - 1) 0 < 256 := getD_lt_of_mem hb (by omega)
      have hn0 : (value.set i (value.getD i 0 ^^^ 1 <<< k)).getD (value.length - 4) 0 < 256 := getD_lt_of_mem hb' (by rw [hL]; omega)
      have hn1 : (value.set i (value.getD i 0 ^^^ 1 <<< k)).getD (value.length - 3) 0 < 256 := getD_lt_of_mem hb' (by rw [hL]; omega)
      have hn2 : (value.set i (value.getD i 0 ^^^ 1 <<< k)).getD (value.length - 2) 0 < 256 := getD_lt_of_mem hb' (by rw [hL]; omega)
      have hn3 : (value.set i (value.getD i 0 ^^^ 1 <<< k)).getD (value.length - 1) 0 < 256 := getD_lt_of_mem hb' (by rw [hL]; omega)
      obtain ⟨q0, q1, q2, q3⟩ :=
        fromBe_inj _ _ _ _ _ _ _ _ ho0 ho1 ho2 ho3 hn0 hn1 hn2 hn3 hcontra
      have hs0 : (1 <<< k : Nat) ≠ 0 := by
        rw [Nat.shiftLeft_eq, one_mul]
        exact Nat.pos_iff_ne_zero.mp (Nat.pos_pow_of_pos k (by norm_num))
      have hicase : i = value.length - 4 ∨ i = value.length - 3 ∨ i = value.length - 2 ∨
          i = value.length - 1 := by omega
      rcases hicase with hi | hi | hi | hi
      · rw [hi, getD_set_eq _ _ _ (by omega)] at q0
        exact xor_flip_ne _ _ hs0 q0.symm
      · rw [hi, getD_set_eq _ _ _ (by omega)] at q1
        exact xor_flip_ne _ _ hs0 q1.symm
      · rw [hi, getD_set_eq _ _ _ (by omega)] at q2
        exact xor_flip_ne _ _ hs0 q2.symm
      · rw [hi, getD_set_eq _ _ _ (by omega)] at q3
        exact xor_flip_ne _ _ hs0 q3.symm
    rw [chunk_try_from_eq, hL]
    rw [if_neg (by omega), if_neg (by omega)]
    rw [g4, g5, g6, g7, hct]
    dsimp only []
    rw [if_neg (by omega)]
    rw [g0, g1, g2, g3]
    rw [if_neg (show ¬(u32FromBeBytes (value.getD 0 0) (value.getD 1 0) (value.getD 2 0)
      (value.getD 3 0) ≠ value.length - 12) from fun hh => hh (by rw [← hl1]; exact hl2))]
    have hslice : (((value.set i (value.getD i 0 ^^^ 1 <<< k)).drop 4).take (value.length - 8)) =
        ((value.drop 4).take (value.length - 8)) :=
      take_drop_set_outside value i 4 (value.length - 8) _ (by omega)
    rw [hslice, hval]
    rw [if_pos hne]
  · intro value c h
    obtain ⟨-, -, -, -, -, -, hval⟩ := (chunk_try_from_ok_iff value c).mp h
    exact hval.symm

/-- Witness for C6: the repository's invalid-crc test buffer (stored crc
2882656333, one less than the correct 2882656334) is rejected with Crc;
flipping bit 0 of the last checksum byte of the valid fixture buffer is
rejected with Crc; and the accepted fixture chunk's stored crc equals the
recomputed one. -/
theorem crc_mismatch_rejected_witness :
    Chunk.try_from ([0, 0, 0, 42] ++ rustType.bytes ++ fixtureMessage ++
      u32ToBeBytes 2882656333) = .err .Crc ∧
    Chunk.try_from (fixtureBuffer.set 53 (fixtureBuffer.getD 53 0 ^^^ 1 <<< 0)) = .err .Crc ∧
    fixtureChunk.crc = crc32 ((fixtureBuffer.drop 4).take (fixtureBuffer.length - 8)) :=
  ⟨crc_mismatch_rejected.1 _ (by decide) ⟨⟨82, 117, 83, 116⟩, by rfl⟩ (by decide) (by decide),
   crc_mismatch_rejected.2.1 fixtureBuffer fixtureChunk 53 0 (by rfl) (by decide) (by decide)
     (by decide) (by decide),
   crc_mismatch_rejected.2.2 fixtureBuffer fixtureChunk (by rfl)⟩
